import Mathlib

/-!
Verification development for the crewAI flow-graph layout and rendering
engine (`src/crewai/flow/flow_visualizer.py`) and the tool-wrapping layer
(`src/crewai/tools/base_tool.py`).

The flow is embedded as a plain directed graph (node identifiers and an
edge list); the level assigner is a cycle-tolerant depth-first pass, the
renderer is modelled as an explicit state transition on an abstract
filesystem, and the cleanup step mirrors the try/except structure of
`FlowPlot._cleanup_pyvis_lib`.
-/

/-- A flow graph: declared step names in declaration order, and directed
edges (source, target) derived from the trigger declarations. -/
structure Graph where
  nodes : List String
  edges : List (String × String)
deriving DecidableEq

/-- Association-list lookup keyed by strings (dictionary access). -/
def alookup {α : Type} : String → List (String × α) → Option α
  | _, [] => none
  | x, (k, a) :: rest => if x = k then some a else alookup x rest

/-- Well-formed graph: every edge references declared nodes (a trigger
referencing an unknown upstream node is an input contract violation). -/
def WFgraph (g : Graph) : Prop :=
  ∀ p ∈ g.edges, p.1 ∈ g.nodes ∧ p.2 ∈ g.nodes

instance (g : Graph) : Decidable (WFgraph g) := by
  unfold WFgraph; infer_instance

/-- The direct predecessors of `v`: sources of the edges into `v`. -/
def preds (g : Graph) (v : String) : List String :=
  (g.edges.filter (fun e => e.2 == v)).map Prod.fst

/-- State of the level-assignment pass: the levels assigned so far
(most recent assignment first) and the edges reclassified as cyclic. -/
structure DfsState where
  levels : List (String × Nat)
  cyclic : List (String × String)
deriving DecidableEq

/-- The levels of the non-cyclic predecessors of `v` that are assigned. -/
def predLevelList (g : Graph) (s : DfsState) (v : String) : List Nat :=
  (preds g v).filterMap
    (fun u => if (u, v) ∈ s.cyclic then none else alookup u s.levels)

/-- Level for a node: one more than the maximum level among its
remaining non-cyclic predecessors, defaulting to 0 if none remain. -/
def newLevel (g : Graph) (s : DfsState) (v : String) : Nat :=
  if predLevelList g s v = [] then 0 else (predLevelList g s v).foldr max 0 + 1

/-- Modelled from the spec: the recursive resolution step of
`calculate_node_levels` (`crewai/flow/utils.py`, not part of the excerpt).
For an unassigned node, push it on the in-progress stack, resolve each
predecessor depth-first; a predecessor still being resolved closes a
cycle, so that edge is marked cyclic and skipped; finally the node's own
level is computed from its remaining non-cyclic predecessors.  `fuel`
bounds the recursion depth and is chosen large enough at the top level. -/
def resolve (g : Graph) : Nat → String → DfsState → List String → DfsState
  | 0, _, s, _ => s
  | fuel + 1, v, s, stack =>
    if (alookup v s.levels).isSome then s
    else
      let stack' := v :: stack
      let s1 := (preds g v).foldl
        (fun t u =>
          if u ∈ stack' then { t with cyclic := (u, v) :: t.cyclic }
          else resolve g fuel u t stack') s
      { s1 with levels := (v, newLevel g s1 v) :: s1.levels }

/-- Modelled from the spec: `calculate_node_levels`
(`crewai/flow/utils.py`, not part of the excerpt) processes nodes in
declaration order with the depth-first resolution pass. -/
def calculate_node_levels (g : Graph) : DfsState :=
  g.nodes.foldl (fun s v => resolve g (g.nodes.length + 1) v s []) ⟨[], []⟩

/-- Bounded reachability: is there a path of length at most `fuel` from
`a` to `b`? -/
def reachB (g : Graph) : Nat → String → String → Bool
  | 0, _, _ => false
  | n + 1, a, b =>
    g.edges.any (fun e => e.1 == a && (e.2 == b || reachB g n e.2 b))

/-- A graph is acyclic when no node reaches itself. -/
def AcyclicB (g : Graph) : Bool :=
  g.nodes.all (fun v => !(reachB g (g.nodes.length + g.edges.length + 1) v v))

/-- The nodes sharing a given level, in declaration order. -/
def nodesAtLevel (g : Graph) (s : DfsState) (lvl : Nat) : List String :=
  g.nodes.filter (fun v => alookup v s.levels == some lvl)

/-- Modelled from the spec: `compute_positions`
(`crewai/flow/visualization_utils.py`, not part of the excerpt).  The
axis orthogonal to level is partitioned evenly among the nodes sharing a
level, centered around the origin with a fixed per-node spacing; the
level axis is a fixed multiple of the level number.  Coordinates are
integers scaled by two to keep the centering exact. -/
def compute_positions (g : Graph) (s : DfsState) : List (String × Int × Int) :=
  g.nodes.map (fun v =>
    match alookup v s.levels with
    | none => (v, 0, 0)
    | some lvl =>
      let row := nodesAtLevel g s lvl
      let idx := row.indexOf v
      (v, (2 * (idx : Int) - ((row.length : Int) - 1)) * 75, (lvl : Int) * 150))

/-- The layout pipeline: level assignment followed by position
computation, as invoked by `FlowPlot.plot`. -/
def layout_pipeline (g : Graph) : DfsState × List (String × Int × Int) :=
  (calculate_node_levels g, compute_positions g (calculate_node_levels g))

/-- The pyvis network handle built by `FlowPlot.plot`. -/
structure Network where
  directed : Bool
  height : String
  width : String
  bgcolor : String
  options : String
  nodesData : List (String × Int × Int)
  edgesData : List (String × String)

/-- Modelled from the spec: the background color from the style table
(`crewai/flow/config.py`, not part of the excerpt). -/
def colorsBg : String := "#FFFFFF"

/-- `Network.set_options`: store the vis.js options string. -/
def Network.set_options (net : Network) (o : String) : Network :=
  { net with options := o }

/-- The options literal passed to `net.set_options` in `FlowPlot.plot`
(braces escaped). -/
def flowPlotOptions : String :=
  "\n            var options = \x7b\n                \"nodes\": \x7b\n                    \"font\": \x7b\n                        \"multi\": \"html\"\n                    \x7d\n                \x7d,\n                \"physics\": \x7b\n                    \"enabled\": false\n                \x7d\n            \x7d\n        "

/-- The options literal up to the physics block (braces escaped). -/
def flowPlotOptionsPre : String :=
  "\n            var options = \x7b\n                \"nodes\": \x7b\n                    \"font\": \x7b\n                        \"multi\": \"html\"\n                    \x7d\n                \x7d,\n                \"physics\": \x7b\n                    "

/-- The options literal after the physics enabled flag (braces escaped). -/
def flowPlotOptionsPost : String :=
  "\n                \x7d\n            \x7d\n        "

/-- Modelled from the spec: `add_nodes_to_network`
(`crewai/flow/visualization_utils.py`, not part of the excerpt) records
each node at its computed position. -/
def add_nodes_to_network (net : Network) (positions : List (String × Int × Int)) : Network :=
  { net with nodesData := positions }

/-- Modelled from the spec: `add_edges`
(`crewai/flow/visualization_utils.py`, not part of the excerpt) records
each directed connector. -/
def add_edges (net : Network) (g : Graph) : Network :=
  { net with edgesData := g.edges }

/-- Textual rendering of the node data inside the generated script. -/
def nodesFragment (net : Network) : String :=
  String.intercalate ", " (net.nodesData.map Prod.fst)

/-- Modelled from the spec: pyvis's `Network.generate_html` is an
external collaborator; per the spec the produced document body embeds
the configured options string verbatim in its script section together
with the node and edge data.  The value is the body markup. -/
def generate_html (net : Network) : String :=
  "<div id=\"mynetwork\"></div><script>" ++ net.options ++ "</script><script>"
    ++ nodesFragment net ++ "</script>"

/-- Modelled from the spec: `HTMLTemplateHandler.extract_body_content`
(`crewai/flow/html_template_handler.py`, not part of the excerpt)
extracts the body of the network document; the network document is
modelled as its body markup, so extraction is the identity. -/
def extract_body_content (html : String) : String := html

/-- Modelled from the spec: the legend panel markup built by
`get_legend_items` and `generate_legend_items_html`
(`crewai/flow/legend_generator.py`, not part of the excerpt). -/
def legendHtml : String := "<div class=\"legend\">legend</div>"

/-- Modelled from the spec: the branding template chrome
(`crewai/flow/assets/crewai_flow_visual_template.html`). -/
def templateHead : String :=
  "<!DOCTYPE html><html><head><title>CrewAI Flow</title></head><body><header>logo</header>"

/-- Modelled from the spec: the closing part of the branding template. -/
def templateTail : String := "</body></html>"

/-- Modelled from the spec: `HTMLTemplateHandler.generate_final_html`
combines template chrome, the extracted network body and the legend. -/
def generate_final_html (networkBody legendItemsHtml : String) : String :=
  templateHead ++ networkBody ++ legendItemsHtml ++ templateTail

/-- `FlowPlot._generate_final_html`: template assembly around the
network body, with the legend items. -/
def generate_final_html_of (networkHtml : String) : String :=
  generate_final_html (extract_body_content networkHtml) legendHtml

/-- The fully generated artifact content for a flow, as computed in
memory by `FlowPlot.plot` before any file is touched. -/
def finalHtmlContent (g : Graph) : String :=
  generate_final_html_of
    (generate_html
      (add_edges
        (add_nodes_to_network
          (Network.set_options ⟨true, "750px", "100%", colorsBg, "", [], []⟩ flowPlotOptions)
          (compute_positions g (calculate_node_levels g)))
        g))

/-- Abstract filesystem: regular files (path, content) and directories. -/
structure FileSystem where
  files : List (String × String)
  dirs : List String
deriving DecidableEq

/-- Failure injection for the external effects of one render call:
whether HTML generation succeeds, whether the target path is writable,
and whether removing the transient lib directory succeeds. -/
structure Env where
  htmlGenOk : Bool
  pathWritable : Bool
  rmtreeOk : Bool

/-- The ways `FlowPlot.plot` can fail. -/
inductive PlotError where
  | renderFailure
  | writeFailure
deriving DecidableEq

/-- `os.path.exists`: a file or directory exists at the path. -/
def existsPath (fs : FileSystem) (p : String) : Bool :=
  (fs.files.map Prod.fst).contains p || fs.dirs.contains p

/-- `os.path.isdir`: a directory exists at the path. -/
def isDir (fs : FileSystem) (p : String) : Bool :=
  fs.dirs.contains p

/-- `shutil.rmtree`: removes the directory, or raises. -/
def rmtree (env : Env) (fs : FileSystem) (p : String) : Except String FileSystem :=
  if env.rmtreeOk then Except.ok { fs with dirs := fs.dirs.filter (fun d => d != p) }
  else Except.error "permission denied"

/-- `os.path.join(os.getcwd(), "lib")`: the transient pyvis directory. -/
def libFolder (cwd : String) : String := cwd ++ "/lib"

/-- `FlowPlot._cleanup_pyvis_lib`: if the lib folder under the current
working directory exists and is a directory, remove it; any exception is
caught and printed, never re-raised.  Returns the new filesystem and the
printed messages. -/
def cleanup_pyvis_lib (env : Env) (cwd : String) (fs : FileSystem) : FileSystem × List String :=
  let lib := libFolder cwd
  if existsPath fs lib && isDir fs lib then
    match rmtree env fs lib with
    | Except.ok fs' => (fs', [])
    | Except.error e => (fs, ["Error cleaning up " ++ lib ++ ": " ++ e])
  else (fs, [])

/-- `FlowPlot.plot`: build the network, disable physics, run the layout
pipeline, generate the HTML in memory, write the artifact file, print
the completion notice, then clean up the transient pyvis directory.
Failures of the external steps (HTML generation, opening the target
path) propagate to the caller; there is no try/finally around the body,
so the cleanup call is reached only on the success path.  Returns the
call outcome, the resulting filesystem and the printed messages. -/
def FlowPlot.plot (g : Graph) (filename : String) (env : Env) (cwd : String)
    (fs : FileSystem) : Except PlotError Unit × FileSystem × List String :=
  if env.htmlGenOk then
    let final_html_content := finalHtmlContent g
    if env.pathWritable then
      let fs1 : FileSystem :=
        { fs with files := (filename ++ ".html", final_html_content) :: fs.files }
      let cleaned := cleanup_pyvis_lib env cwd fs1
      (Except.ok (), cleaned.1, ("Plot saved as " ++ filename ++ ".html") :: cleaned.2)
    else (Except.error PlotError.writeFailure, fs, [])
  else (Except.error PlotError.renderFailure, fs, [])

/-- `plot_flow`: create a `FlowPlot` for the flow and plot it; the
output base name defaults to `flow_plot`. -/
def plot_flow (g : Graph) (env : Env) (cwd : String) (fs : FileSystem)
    (filename : String := "flow_plot") : Except PlotError Unit × FileSystem × List String :=
  FlowPlot.plot g filename env cwd fs

/-- A LangChain `Tool` object as constructed by `Tool.to_langchain`:
only the fields relevant to the conversion are modelled. -/
structure LCTool where
  name : String
  description : String
deriving DecidableEq

/-- The crewAI `Tool` fields read by `to_langchain`. -/
structure CrewTool where
  name : String
  description : String

/-- `Tool.to_langchain` (`crewai/tools/base_tool.py`, class `Tool`):
when `langchain_core` imports, the body evaluates the `LC_Tool`
constructor call as a bare statement and then falls off the end of the
function, so Python returns `None`.  The result records the list of
constructed LangChain tools alongside the returned value. -/
def Tool.to_langchain (t : CrewTool) (langchainInstalled : Bool) :
    Except String (List LCTool × Option LCTool) :=
  if langchainInstalled then
    let lc : LCTool := ⟨t.name, t.description⟩
    Except.ok ([lc], none)
  else Except.error "langchain_core is not installed"

/-- Measure for the depth-first pass: number of declared nodes that are
unassigned and not on the in-progress stack. -/
def unassignedCount (g : Graph) (s : DfsState) (stack : List String) : Nat :=
  (g.nodes.filter (fun x => (alookup x s.levels == none) && !(stack.contains x))).length

/-- A node already carries a level. -/
def Assigned (s : DfsState) (x : String) : Prop := (alookup x s.levels).isSome = true

/-- The node identifiers carrying levels, most recent assignment first. -/
def keys (s : DfsState) : List String := s.levels.map Prod.fst

/-- Every node on the in-progress stack is still unassigned. -/
def StackUnassigned (s : DfsState) (stack : List String) : Prop :=
  ∀ x ∈ stack, alookup x s.levels = none

/-- Monotonicity along non-cyclic edges: an assigned target forces its
source to be assigned at a strictly smaller level. -/
def EdgeInv (g : Graph) (s : DfsState) : Prop :=
  ∀ u v : String, (u, v) ∈ g.edges → (u, v) ∉ s.cyclic →
    ∀ lv, alookup v s.levels = some lv →
      ∃ lu, alookup u s.levels = some lu ∧ lu < lv

/-- The source of a cyclic edge is assigned strictly after its target:
its key sits strictly in front of the target key in the level list. -/
def CyclicOrd (s : DfsState) : Prop :=
  ∀ p q : String, (p, q) ∈ s.cyclic → p ≠ q → Assigned s p →
    ∃ l1 l2, keys s = l1 ++ p :: l2 ∧ q ∈ l2

/-- The target of a cyclic edge is assigned, or is still on the stack
with the source above it. -/
def CyclicPending (s : DfsState) (stack : List String) : Prop :=
  ∀ p q : String, (p, q) ∈ s.cyclic →
    Assigned s q ∨ ∃ t, (q :: t) <:+ stack ∧ p ∈ q :: t

/-- Every pair marked cyclic is an actual edge of the graph. -/
def CyclicEdges (g : Graph) (s : DfsState) : Prop :=
  ∀ p ∈ s.cyclic, p ∈ g.edges

/-- The invariant bundle maintained by the depth-first pass. -/
def Good (g : Graph) (s : DfsState) (stack : List String) : Prop :=
  StackUnassigned s stack ∧ EdgeInv g s ∧ CyclicOrd s ∧ CyclicPending s stack ∧
    CyclicEdges g s ∧ (keys s).Nodup

/-- The three-step flow of the spec's end-to-end example. -/
def gExample : Graph :=
  ⟨["start", "stepA", "stepB"], [("start", "stepA"), ("start", "stepB"), ("stepA", "stepB")]⟩

/-- A direct two-node cycle: `a` triggers `b` and `b` triggers `a`. -/
def gCycle : Graph := ⟨["a", "b"], [("a", "b"), ("b", "a")]⟩

/-- All external effects succeed. -/
def envOk : Env := ⟨true, true, true⟩

/-- HTML generation raises. -/
def envRenderFail : Env := ⟨false, true, true⟩

/-- The target path is unwritable. -/
def envNoWrite : Env := ⟨true, false, true⟩

/-- Removing the transient lib directory raises. -/
def envNoRm : Env := ⟨true, true, false⟩

/-- A filesystem that already holds the transient `lib` directory. -/
def fsWithLib : FileSystem := ⟨[], ["/lib"]⟩

/-- An empty filesystem. -/
def fsEmpty : FileSystem := ⟨[], []⟩

lemma mem_keys_of_alookup {α : Type} {x : String} {l : List (String × α)} {a : α}
    (h : alookup x l = some a) : x ∈ l.map Prod.fst := by
  induction l with
  | nil => simp [alookup] at h
  | cons p rest ih =>
    rw [alookup] at h
    by_cases hx : x = p.1
    · simp [hx]
    · simp [hx] at h
      simp [ih h]

lemma not_mem_keys_of_alookup_none {α : Type} {x : String} {l : List (String × α)}
    (h : alookup x l = none) : x ∉ l.map Prod.fst := by
  induction l with
  | nil => simp
  | cons p rest ih =>
    rw [alookup] at h
    by_cases hx : x = p.1
    · simp [hx] at h
    · simp [hx] at h
      simp [hx, ih h]

lemma mem_preds_iff {g : Graph} {u v : String} : u ∈ preds g v ↔ (u, v) ∈ g.edges := by
  unfold preds
  constructor
  · intro h
    obtain ⟨e, he, hu⟩ := List.mem_map.mp h
    have hf := List.mem_filter.mp he
    have h2 : e.2 = v := by simpa using hf.2
    have he' : e = (u, v) := by
      cases e
      simp at hu h2
      simp [hu, h2]
    rw [he'] at he
    exact (List.mem_filter.mp he).1
  · intro h
    apply List.mem_map.mpr
    refine ⟨(u, v), ?_, rfl⟩
    apply List.mem_filter.mpr
    simp [h]

lemma foldl_inv {α β : Type} {f : β → α → β} {l : List α} {b : β} (P : β → Prop)
    (h : ∀ b a, a ∈ l → P b → P (f b a)) (hb : P b) : P (l.foldl f b) := by
  induction l generalizing b with
  | nil => simpa using hb
  | cons a rest ih =>
    rw [List.foldl_cons]
    exact ih (fun b x hx hP => h b x (List.mem_cons_of_mem a hx) hP)
      (h b a (List.mem_cons_self a rest) hb)

lemma foldl_establish {α β : Type} {f : β → α → β} {l : List α} {b : β}
    (P : β → Prop) (A : α → β → Prop)
    (hP : ∀ b a, a ∈ l → P b → P (f b a))
    (hA : ∀ b a, a ∈ l → P b → A a (f b a))
    (hStable : ∀ b a x, a ∈ l → A x b → A x (f b a))
    (hb : P b) : ∀ x ∈ l, A x (l.foldl f b) := by
  induction l generalizing b with
  | nil => simp
  | cons a rest ih =>
    intro x hx
    rw [List.foldl_cons]
    rcases List.mem_cons.mp hx with hxa | hxr
    · subst hxa
      have hAx : A x (f b x) := hA b x (List.mem_cons_self x rest) hb
      exact foldl_inv (A x)
        (fun b' a' ha' hA' => hStable b' a' x (List.mem_cons_of_mem x ha') hA') hAx
    · exact ih
        (fun b' a' ha' hP' => hP b' a' (List.mem_cons_of_mem a ha') hP')
        (fun b' a' ha' hP' => hA b' a' (List.mem_cons_of_mem a ha') hP')
        (fun b' a' x' ha' hA' => hStable b' a' x' (List.mem_cons_of_mem a ha') hA')
        (hP b a (List.mem_cons_self a rest) hb) x hxr

lemma resolve_levels_mono (g : Graph) :
    ∀ (fuel : Nat) (v : String) (s : DfsState) (stack : List String) (x : String) (n : Nat),
      alookup x s.levels = some n →
      alookup x (resolve g fuel v s stack).levels = some n := by
  intro fuel
  induction fuel with
  | zero =>
    intro v s stack x n h
    simpa [resolve] using h
  | succ fuel ih =>
    intro v s stack x n h
    rw [resolve]
    by_cases hv : (alookup v s.levels).isSome
    · simpa [hv] using h
    · simp only [hv, if_false, Bool.false_eq_true]
      have hs1 : alookup x ((preds g v).foldl
          (fun t u =>
            if u ∈ v :: stack then { t with cyclic := (u, v) :: t.cyclic }
            else resolve g fuel u t (v :: stack)) s).levels = some n := by
        refine foldl_inv (fun (t : DfsState) => alookup x t.levels = some n) ?_ h
        intro t u hu hP
        by_cases hmem : u ∈ v :: stack
        · simpa [hmem] using hP
        · simpa [hmem] using ih u t (v :: stack) x n hP
      have hxv : x ≠ v := by
        intro he
        subst he
        rw [h] at hv
        simp at hv
      simpa [alookup, hxv] using hs1

lemma resolve_cyclic_mono (g : Graph) :
    ∀ (fuel : Nat) (v : String) (s : DfsState) (stack : List String)
      (p : String × String), p ∈ s.cyclic → p ∈ (resolve g fuel v s stack).cyclic := by
  intro fuel
  induction fuel with
  | zero =>
    intro v s stack p h
    simpa [resolve] using h
  | succ fuel ih =>
    intro v s stack p h
    rw [resolve]
    by_cases hv : (alookup v s.levels).isSome
    · simpa [hv] using h
    · simp only [hv, if_false, Bool.false_eq_true]
      show p ∈ ((preds g v).foldl _ s).cyclic
      refine foldl_inv (fun (t : DfsState) => p ∈ t.cyclic) ?_ h
      intro t u hu hP
      by_cases hmem : u ∈ v :: stack
      · simp [hmem]
        exact Or.inr hP
      · simpa [hmem] using ih u t (v :: stack) p hP

lemma filter_length_mono {α : Type} (l : List α) (p q : α → Bool)
    (h : ∀ x ∈ l, q x = true → p x = true) :
    (l.filter q).length ≤ (l.filter p).length := by
  induction l with
  | nil => simp
  | cons a rest ih =>
    have ih' := ih (fun x hx => h x (List.mem_cons_of_mem a hx))
    by_cases hq : q a = true
    · have hp := h a (List.mem_cons_self a rest) hq
      simp [hq, hp]
      exact ih'
    · rw [List.filter_cons]
      simp only [hq, if_false, Bool.false_eq_true]
      by_cases hp : p a = true
      · simp [hp]
        exact Nat.le_succ_of_le ih'
      · rw [List.filter_cons]
        simp only [hp, if_false, Bool.false_eq_true]
        exact ih'

lemma filter_length_lt {α : Type} (l : List α) (p q : α → Bool)
    (h : ∀ x ∈ l, q x = true → p x = true)
    (a : α) (ha : a ∈ l) (hpa : p a = true) (hqa : q a = false) :
    (l.filter q).length < (l.filter p).length := by
  induction l with
  | nil => simp at ha
  | cons b rest ih =>
    have hmono := filter_length_mono rest p q (fun x hx => h x (List.mem_cons_of_mem b hx))
    rcases List.mem_cons.mp ha with hab | har
    · subst hab
      simp [List.filter_cons, hqa, hpa]
      exact Nat.lt_succ_of_le hmono
    · have ih' := ih (fun x hx => h x (List.mem_cons_of_mem b hx)) har
      by_cases hq : q b = true
      · have hp := h b (List.mem_cons_self b rest) hq
        simp [List.filter_cons, hq, hp]
        exact ih'
      · rw [List.filter_cons, List.filter_cons]
        simp only [hq, if_false, Bool.false_eq_true]
        by_cases hp : p b = true
        · simp [hp]
          exact Nat.lt_succ_of_lt ih'
        · simp only [hp, if_false, Bool.false_eq_true]
          exact ih'

lemma unassignedCount_mono_levels (g : Graph) (s t : DfsState) (stack : List String)
    (h : ∀ x n, alookup x s.levels = some n → (alookup x t.levels).isSome = true) :
    unassignedCount g t stack ≤ unassignedCount g s stack := by
  apply filter_length_mono
  intro x _ hx
  rw [Bool.and_eq_true] at hx ⊢
  refine ⟨?_, hx.2⟩
  have h1 : alookup x t.levels = none := by simpa using hx.1
  cases hs : alookup x s.levels with
  | none => simp
  | some n =>
    have h2 := h x n hs
    rw [h1] at h2
    simp at h2

lemma unassignedCount_push (g : Graph) (s : DfsState) (stack : List String) (v : String)
    (hv : v ∈ g.nodes) (hlv : alookup v s.levels = none) (hvs : v ∉ stack) :
    unassignedCount g s (v :: stack) < unassignedCount g s stack := by
  apply filter_length_lt _ _ _ _ v hv
  · simp [hlv, hvs]
  · simp
  · intro x _ hx
    rw [Bool.and_eq_true] at hx ⊢
    refine ⟨hx.1, ?_⟩
    have h2 := hx.2
    simp at h2 ⊢
    exact h2.2

lemma le_foldr_max {x : Nat} : ∀ {l : List Nat}, x ∈ l → x ≤ l.foldr max 0 := by
  intro l
  induction l with
  | nil => intro h; simp at h
  | cons a rest ih =>
    intro h
    rcases List.mem_cons.mp h with h1 | h2
    · subst h1
      exact Nat.le_max_left _ _
    · exact Nat.le_trans (ih h2) (Nat.le_max_right _ _)

lemma assigned_mono_resolve (g : Graph) (fuel : Nat) (v : String) (s : DfsState)
    (stack : List String) (x : String) (h : Assigned s x) :
    Assigned (resolve g fuel v s stack) x := by
  unfold Assigned at h ⊢
  obtain ⟨n, hn⟩ := Option.isSome_iff_exists.mp h
  rw [resolve_levels_mono g fuel v s stack x n hn]
  rfl

lemma good_push (g : Graph) (s : DfsState) (stack : List String) (v : String)
    (hlv : alookup v s.levels = none) (h : Good g s stack) : Good g s (v :: stack) := by
  obtain ⟨hSU, hEI, hCO, hCP, hCE, hND⟩ := h
  refine ⟨?_, hEI, hCO, ?_, hCE, hND⟩
  · intro x hx
    rcases List.mem_cons.mp hx with h1 | h2
    · subst h1; exact hlv
    · exact hSU x h2
  · intro p q hpq
    rcases hCP p q hpq with h1 | ⟨t, hsuf, hp⟩
    · exact Or.inl h1
    · exact Or.inr ⟨t, hsuf.trans (List.suffix_cons v stack), hp⟩

lemma good_mark (g : Graph) (t : DfsState) (v u : String) (stack : List String)
    (hu : u ∈ v :: stack) (hedge : (u, v) ∈ g.edges)
    (h : Good g t (v :: stack)) :
    Good g { t with cyclic := (u, v) :: t.cyclic } (v :: stack) := by
  obtain ⟨hSU, hEI, hCO, hCP, hCE, hND⟩ := h
  refine ⟨hSU, ?_, ?_, ?_, ?_, hND⟩
  · intro a b hab hnc lv hlb
    exact hEI a b hab (fun hmem => hnc (List.mem_cons_of_mem _ hmem)) lv hlb
  · intro p q hpq hne hassigned
    rcases List.mem_cons.mp hpq with heq | hold
    · have hp : p = u := by
        simpa using congrArg Prod.fst heq
      exfalso
      have hnone := hSU p (hp ▸ hu)
      unfold Assigned at hassigned
      rw [hnone] at hassigned
      simp at hassigned
    · exact hCO p q hold hne hassigned
  · intro p q hpq
    rcases List.mem_cons.mp hpq with heq | hold
    · have hp : p = u := by simpa using congrArg Prod.fst heq
      have hq : q = v := by simpa using congrArg Prod.snd heq
      subst hp
      subst hq
      exact Or.inr ⟨stack, List.suffix_refl _, hu⟩
    · exact hCP p q hold
  · intro p hp
    rcases List.mem_cons.mp hp with heq | hold
    · subst heq
      exact hedge
    · exact hCE p hold

lemma good_assign (g : Graph) (s1 : DfsState) (v : String) (stack : List String)
    (hvS : v ∉ stack)
    (hGood : Good g s1 (v :: stack))
    (hA : ∀ u ∈ preds g v, (u, v) ∈ s1.cyclic ∨ Assigned s1 u) :
    Good g { s1 with levels := (v, newLevel g s1 v) :: s1.levels } stack ∧
    Assigned { s1 with levels := (v, newLevel g s1 v) :: s1.levels } v := by
  obtain ⟨hSU, hEI, hCO, hCP, hCE, hND⟩ := hGood
  have hlv1 : alookup v s1.levels = none := hSU v (List.mem_cons_self v stack)
  have hlook_v :
      alookup v ((v, newLevel g s1 v) :: s1.levels) = some (newLevel g s1 v) := by
    simp [alookup]
  have hlook_ne : ∀ x, x ≠ v →
      alookup x ((v, newLevel g s1 v) :: s1.levels) = alookup x s1.levels := by
    intro x hx
    simp [alookup, hx]
  have hAss : Assigned { s1 with levels := (v, newLevel g s1 v) :: s1.levels } v := by
    unfold Assigned
    rw [hlook_v]
    rfl
  refine ⟨⟨?_, ?_, ?_, ?_, hCE, ?_⟩, hAss⟩
  · -- StackUnassigned
    intro x hx
    have hxv : x ≠ v := fun he => hvS (he ▸ hx)
    show alookup x ((v, newLevel g s1 v) :: s1.levels) = none
    rw [hlook_ne x hxv]
    exact hSU x (List.mem_cons_of_mem v hx)
  · -- EdgeInv
    intro a b hab hnc lv hlb
    by_cases hb : b = v
    · rw [hb] at hlb hab hnc
      rw [show ({ s1 with levels := (v, newLevel g s1 v) :: s1.levels } : DfsState).levels
          = (v, newLevel g s1 v) :: s1.levels from rfl, hlook_v] at hlb
      have hlveq : newLevel g s1 v = lv := by
        simpa using hlb
      have hpred : a ∈ preds g v := mem_preds_iff.mpr hab
      rcases hA a hpred with hcy | hassa
      · exact absurd hcy hnc
      · obtain ⟨la, hla⟩ := Option.isSome_iff_exists.mp hassa
        have hav : a ≠ v := by
          intro he
          rw [he, hlv1] at hla
          exact Option.noConfusion hla
        refine ⟨la, ?_, ?_⟩
        · show alookup a ((v, newLevel g s1 v) :: s1.levels) = some la
          rw [hlook_ne a hav]
          exact hla
        · have hmem : la ∈ predLevelList g s1 v := by
            unfold predLevelList
            apply List.mem_filterMap.mpr
            refine ⟨a, hpred, ?_⟩
            have hnc1 : (a, v) ∉ s1.cyclic := hnc
            simp [hnc1, hla]
          have hnil : predLevelList g s1 v ≠ [] := by
            intro h0
            rw [h0] at hmem
            simp at hmem
          rw [← hlveq, newLevel, if_neg hnil]
          exact Nat.lt_succ_of_le (le_foldr_max hmem)
    · rw [show ({ s1 with levels := (v, newLevel g s1 v) :: s1.levels } : DfsState).levels
          = (v, newLevel g s1 v) :: s1.levels from rfl, hlook_ne b hb] at hlb
      obtain ⟨la, hla, hlt⟩ := hEI a b hab hnc lv hlb
      have hav : a ≠ v := by
        intro he
        rw [he, hlv1] at hla
        exact Option.noConfusion hla
      refine ⟨la, ?_, hlt⟩
      show alookup a ((v, newLevel g s1 v) :: s1.levels) = some la
      rw [hlook_ne a hav]
      exact hla
  · -- CyclicOrd
    intro p q hpq hne hassigned
    have hkeys : keys { s1 with levels := (v, newLevel g s1 v) :: s1.levels }
        = v :: keys s1 := by
      simp [keys]
    by_cases hp : p = v
    · subst hp
      have hq : q ∈ keys s1 := by
        rcases hCP p q hpq with hass | ⟨tl, hsuf, hmem⟩
        · obtain ⟨n, hn⟩ := Option.isSome_iff_exists.mp hass
          exact mem_keys_of_alookup hn
        · rcases List.suffix_cons_iff.mp hsuf with heq | hsuf'
          · exfalso
            have hqv : q = p := by
              injection heq
            exact hne hqv.symm
          · exfalso
            exact hvS (hsuf'.subset hmem)
      exact ⟨[], keys s1, by rw [hkeys]; rfl, hq⟩
    · have hassigned1 : Assigned s1 p := by
        unfold Assigned at hassigned ⊢
        rw [show ({ s1 with levels := (v, newLevel g s1 v) :: s1.levels } : DfsState).levels
          = (v, newLevel g s1 v) :: s1.levels from rfl, hlook_ne p hp] at hassigned
        exact hassigned
      obtain ⟨l1, l2, hk, hql⟩ := hCO p q hpq hne hassigned1
      exact ⟨v :: l1, l2, by rw [hkeys, hk]; rfl, hql⟩
  · -- CyclicPending
    intro p q hpq
    rcases hCP p q hpq with hass | ⟨tl, hsuf, hmem⟩
    · left
      unfold Assigned at hass ⊢
      by_cases hq : q = v
      · subst hq
        rw [show ({ s1 with levels := (q, newLevel g s1 q) :: s1.levels } : DfsState).levels
          = (q, newLevel g s1 q) :: s1.levels from rfl, hlook_v]
        rfl
      · rw [show ({ s1 with levels := (v, newLevel g s1 v) :: s1.levels } : DfsState).levels
          = (v, newLevel g s1 v) :: s1.levels from rfl, hlook_ne q hq]
        exact hass
    · rcases List.suffix_cons_iff.mp hsuf with heq | hsuf'
      · left
        have hq : q = v := by
          injection heq
        subst hq
        exact hAss
      · exact Or.inr ⟨tl, hsuf', hmem⟩
  · -- Nodup
    have hkeys : keys { s1 with levels := (v, newLevel g s1 v) :: s1.levels }
        = v :: keys s1 := by
      simp [keys]
    rw [hkeys]
    exact List.nodup_cons.mpr ⟨not_mem_keys_of_alookup_none hlv1, hND⟩

lemma resolve_good (g : Graph) (hwf : WFgraph g) :
    ∀ (fuel : Nat) (v : String) (s : DfsState) (stack : List String),
      v ∈ g.nodes → v ∉ stack → (∀ x ∈ stack, x ∈ g.nodes) →
      unassignedCount g s stack < fuel →
      Good g s stack →
      Good g (resolve g fuel v s stack) stack ∧ Assigned (resolve g fuel v s stack) v := by
  intro fuel
  induction fuel with
  | zero =>
    intro v s stack _ _ _ hcount _
    exact absurd hcount (Nat.not_lt_zero _)
  | succ fuel ih =>
    intro v s stack hvN hvS hSN hcount hGood
    rw [resolve]
    by_cases hv : (alookup v s.levels).isSome
    · simp only [hv, if_true]
      exact ⟨hGood, hv⟩
    · simp only [hv, if_false, Bool.false_eq_true]
      have hlv : alookup v s.levels = none := by
        cases h' : alookup v s.levels with
        | none => rfl
        | some n => rw [h'] at hv; simp at hv
      have hGood' : Good g s (v :: stack) := good_push g s stack v hlv hGood
      have hcount1 : unassignedCount g s (v :: stack) < unassignedCount g s stack :=
        unassignedCount_push g s stack v hvN hlv hvS
      have hcountF : unassignedCount g s stack ≤ fuel := Nat.lt_succ_iff.mp hcount
      have hSN' : ∀ x ∈ v :: stack, x ∈ g.nodes := by
        intro x hx
        rcases List.mem_cons.mp hx with h1 | h2
        · rw [h1]; exact hvN
        · exact hSN x h2
      have hPstep : ∀ (t : DfsState) (u : String), u ∈ preds g v →
          (Good g t (v :: stack) ∧
            unassignedCount g t (v :: stack) ≤ unassignedCount g s (v :: stack)) →
          Good g (if u ∈ v :: stack then { t with cyclic := (u, v) :: t.cyclic }
              else resolve g fuel u t (v :: stack)) (v :: stack) ∧
          unassignedCount g (if u ∈ v :: stack then { t with cyclic := (u, v) :: t.cyclic }
              else resolve g fuel u t (v :: stack)) (v :: stack)
            ≤ unassignedCount g s (v :: stack) := by
        intro t u hu hP
        obtain ⟨hGt, hCt⟩ := hP
        by_cases hmem : u ∈ v :: stack
        · simp only [hmem, if_true]
          exact ⟨good_mark g t v u stack hmem (mem_preds_iff.mp hu) hGt, hCt⟩
        · simp only [hmem, if_false]
          have huN : u ∈ g.nodes := (hwf (u, v) (mem_preds_iff.mp hu)).1
          have hcnt : unassignedCount g t (v :: stack) < fuel :=
            Nat.lt_of_le_of_lt hCt (Nat.lt_of_lt_of_le hcount1 hcountF)
          obtain ⟨hG2, _⟩ := ih u t (v :: stack) huN hmem hSN' hcnt hGt
          refine ⟨hG2, Nat.le_trans ?_ hCt⟩
          apply unassignedCount_mono_levels
          intro x n hx
          rw [resolve_levels_mono g fuel u t (v :: stack) x n hx]
          rfl
      have hAstep : ∀ (t : DfsState) (u : String), u ∈ preds g v →
          (Good g t (v :: stack) ∧
            unassignedCount g t (v :: stack) ≤ unassignedCount g s (v :: stack)) →
          ((u, v) ∈ (if u ∈ v :: stack then { t with cyclic := (u, v) :: t.cyclic }
              else resolve g fuel u t (v :: stack)).cyclic ∨
            Assigned (if u ∈ v :: stack then { t with cyclic := (u, v) :: t.cyclic }
              else resolve g fuel u t (v :: stack)) u) := by
        intro t u hu hP
        obtain ⟨hGt, hCt⟩ := hP
        by_cases hmem : u ∈ v :: stack
        · simp only [hmem, if_true]
          exact Or.inl (List.mem_cons_self _ _)
        · simp only [hmem, if_false]
          have huN : u ∈ g.nodes := (hwf (u, v) (mem_preds_iff.mp hu)).1
          have hcnt : unassignedCount g t (v :: stack) < fuel :=
            Nat.lt_of_le_of_lt hCt (Nat.lt_of_lt_of_le hcount1 hcountF)
          obtain ⟨_, hA2⟩ := ih u t (v :: stack) huN hmem hSN' hcnt hGt
          exact Or.inr hA2
      have hAstable : ∀ (t : DfsState) (u x : String), u ∈ preds g v →
          ((x, v) ∈ t.cyclic ∨ Assigned t x) →
          ((x, v) ∈ (if u ∈ v :: stack then { t with cyclic := (u, v) :: t.cyclic }
              else resolve g fuel u t (v :: stack)).cyclic ∨
            Assigned (if u ∈ v :: stack then { t with cyclic := (u, v) :: t.cyclic }
              else resolve g fuel u t (v :: stack)) x) := by
        intro t u x hu hA
        by_cases hmem : u ∈ v :: stack
        · simp only [hmem, if_true]
          rcases hA with h1 | h2
          · exact Or.inl (List.mem_cons_of_mem _ h1)
          · exact Or.inr h2
        · simp only [hmem, if_false]
          rcases hA with h1 | h2
          · exact Or.inl (resolve_cyclic_mono g fuel u t (v :: stack) (x, v) h1)
          · exact Or.inr (assigned_mono_resolve g fuel u t (v :: stack) x h2)
      have hPfold : Good g ((preds g v).foldl
          (fun t u =>
            if u ∈ v :: stack then { t with cyclic := (u, v) :: t.cyclic }
            else resolve g fuel u t (v :: stack)) s) (v :: stack) ∧
          unassignedCount g ((preds g v).foldl
            (fun t u =>
              if u ∈ v :: stack then { t with cyclic := (u, v) :: t.cyclic }
              else resolve g fuel u t (v :: stack)) s) (v :: stack)
            ≤ unassignedCount g s (v :: stack) := by
        refine foldl_inv
          (fun (t : DfsState) => Good g t (v :: stack) ∧
            unassignedCount g t (v :: stack) ≤ unassignedCount g s (v :: stack))
          ?_ ⟨hGood', Nat.le_refl _⟩
        intro t u hu hP
        exact hPstep t u hu hP
      have hAfold : ∀ u ∈ preds g v,
          (u, v) ∈ ((preds g v).foldl
            (fun t u =>
              if u ∈ v :: stack then { t with cyclic := (u, v) :: t.cyclic }
              else resolve g fuel u t (v :: stack)) s).cyclic ∨
          Assigned ((preds g v).foldl
            (fun t u =>
              if u ∈ v :: stack then { t with cyclic := (u, v) :: t.cyclic }
              else resolve g fuel u t (v :: stack)) s) u := by
        refine foldl_establish
          (fun (t : DfsState) => Good g t (v :: stack) ∧
            unassignedCount g t (v :: stack) ≤ unassignedCount g s (v :: stack))
          (fun (x : String) (t : DfsState) => (x, v) ∈ t.cyclic ∨ Assigned t x)
          ?_ ?_ ?_ ⟨hGood', Nat.le_refl _⟩
        · intro t u hu hP
          exact hPstep t u hu hP
        · intro t u hu hP
          exact hAstep t u hu hP
        · intro t u x hu hA
          exact hAstable t u x hu hA
      exact good_assign g _ v stack hvS hPfold.1 hAfold

lemma init_good (g : Graph) : Good g ⟨[], []⟩ [] := by
  refine ⟨?_, ?_, ?_, ?_, ?_, ?_⟩
  · intro x hx
    exact absurd hx (List.not_mem_nil _)
  · intro u v _ _ lv hlv
    exact Option.noConfusion hlv
  · intro p q hpq _ _
    exact absurd hpq (List.not_mem_nil _)
  · intro p q hpq
    exact absurd hpq (List.not_mem_nil _)
  · intro p hp
    exact absurd hp (List.not_mem_nil _)
  · simp [keys]

lemma calculate_good (g : Graph) (hwf : WFgraph g) :
    Good g (calculate_node_levels g) [] ∧
    ∀ v ∈ g.nodes, Assigned (calculate_node_levels g) v := by
  unfold calculate_node_levels
  have hcnt : ∀ s : DfsState, unassignedCount g s [] < g.nodes.length + 1 := by
    intro s
    exact Nat.lt_succ_of_le (List.length_filter_le _ _)
  have hstep : ∀ (s : DfsState) (v : String), v ∈ g.nodes → Good g s [] →
      Good g (resolve g (g.nodes.length + 1) v s []) [] ∧
      Assigned (resolve g (g.nodes.length + 1) v s []) v := by
    intro s v hv hGood
    exact resolve_good g hwf (g.nodes.length + 1) v s [] hv (List.not_mem_nil _)
      (fun x hx => absurd hx (List.not_mem_nil _)) (hcnt s) hGood
  constructor
  · refine foldl_inv (fun (s : DfsState) => Good g s []) ?_ (init_good g)
    intro s v hv hGood
    exact (hstep s v hv hGood).1
  · refine foldl_establish (fun (s : DfsState) => Good g s [])
      (fun (v : String) (s : DfsState) => Assigned s v) ?_ ?_ ?_ (init_good g)
    · intro s v hv hGood
      exact (hstep s v hv hGood).1
    · intro s v hv hGood
      exact (hstep s v hv hGood).2
    · intro s v x _ hA
      exact assigned_mono_resolve g (g.nodes.length + 1) v s [] x hA

lemma nodup_no_cross {a b : String} :
    ∀ (l1 l2 l1' l2' : List String), (l1 ++ a :: l2).Nodup →
      l1 ++ a :: l2 = l1' ++ b :: l2' → b ∈ l2 → a ∈ l2' → False := by
  intro l1
  induction l1 with
  | nil =>
    intro l2 l1' l2' hnd heq hb ha
    cases l1' with
    | nil =>
      simp only [List.nil_append] at heq
      injection heq with h1 h2
      subst h1
      subst h2
      exact (List.nodup_cons.mp hnd).1 ha
    | cons c t =>
      simp only [List.nil_append, List.cons_append] at heq
      injection heq with h1 h2
      have ha2 : a ∈ l2 := by
        rw [h2]
        exact List.mem_append.mpr (Or.inr (List.mem_cons_of_mem b ha))
      exact (List.nodup_cons.mp hnd).1 ha2
  | cons c t ih =>
    intro l2 l1' l2' hnd heq hb ha
    cases l1' with
    | nil =>
      simp only [List.nil_append, List.cons_append] at heq
      injection heq with h1 h2
      have hnd' := List.nodup_cons.mp hnd
      apply hnd'.1
      rw [h1]
      exact List.mem_append.mpr (Or.inr (List.mem_cons_of_mem a hb))
    | cons c' t' =>
      simp only [List.cons_append] at heq
      injection heq with h1 h2
      have hnd' : (t ++ a :: l2).Nodup := (List.nodup_cons.mp hnd).2
      exact ih l2 t' l2' hnd' h2 hb ha


lemma cleanup_files_eq (env : Env) (cwd : String) (fs : FileSystem) :
    (cleanup_pyvis_lib env cwd fs).1.files = fs.files := by
  unfold cleanup_pyvis_lib rmtree
  by_cases h : env.rmtreeOk <;>
    by_cases hc : (existsPath fs (libFolder cwd) && isDir fs (libFolder cwd)) = true <;>
    simp [h, hc]

lemma cleanup_removes_lib (env : Env) (cwd : String) (fs : FileSystem)
    (h : env.rmtreeOk = true) :
    libFolder cwd ∉ (cleanup_pyvis_lib env cwd fs).1.dirs := by
  unfold cleanup_pyvis_lib rmtree
  by_cases hc : (existsPath fs (libFolder cwd) && isDir fs (libFolder cwd)) = true
  · simp [hc, h]
  · simp [hc]
    intro hm
    apply hc
    have hd : isDir fs (libFolder cwd) = true := by
      simp [isDir]
      exact hm
    have he : existsPath fs (libFolder cwd) = true := by
      simp [existsPath]
      right
      exact hm
    simp [hd, he]

lemma lib_exists_of_isDir (fs : FileSystem) (p : String) (h : isDir fs p = true) :
    existsPath fs p = true := by
  simp [existsPath]
  right
  simp [isDir] at h
  exact h

lemma opts_split :
    flowPlotOptions = flowPlotOptionsPre ++ "\"enabled\": false" ++ flowPlotOptionsPost := by
  unfold flowPlotOptions flowPlotOptionsPre flowPlotOptionsPost
  rfl

/-- C1: for every well-formed acyclic flow graph, the level assignment
computed by `calculate_node_levels` gives, for every edge (u, v) not
marked cyclic, levels with `level u + 1 ≤ level v`, i.e.
`level v > level u`. -/
theorem c1_noncyclic_edge_level_increase (g : Graph) (hwf : WFgraph g)
    (_hacyclic : AcyclicB g = true) (u v : String) (hedge : (u, v) ∈ g.edges)
    (hnc : (u, v) ∉ (calculate_node_levels g).cyclic) :
    ∃ lu lv, alookup u (calculate_node_levels g).levels = some lu ∧
      alookup v (calculate_node_levels g).levels = some lv ∧ lu + 1 ≤ lv := by
  obtain ⟨hGood, htotal⟩ := calculate_good g hwf
  have hv : v ∈ g.nodes := (hwf (u, v) hedge).2
  obtain ⟨lv, hlv⟩ := Option.isSome_iff_exists.mp (htotal v hv)
  obtain ⟨lu, hlu, hlt⟩ := hGood.2.1 u v hedge hnc lv hlv
  exact ⟨lu, lv, hlu, hlv, hlt⟩

/-- Witness for C1 on the spec's three-step example flow. -/
theorem c1_witness :
    WFgraph gExample ∧ AcyclicB gExample = true ∧
    (∃ lu lv, alookup "stepA" (calculate_node_levels gExample).levels = some lu ∧
      alookup "stepB" (calculate_node_levels gExample).levels = some lv ∧ lu + 1 ≤ lv) :=
  ⟨by decide, by decide,
    c1_noncyclic_edge_level_increase gExample (by decide) (by decide) "stepA" "stepB"
      (by decide) (by decide)⟩

/-- C2: for every well-formed flow graph containing a direct two-node
cycle (`a` triggers `b` and `b` triggers `a`), the level-assignment pass
completes with every declared node assigned a level, and exactly one of
the two edges of the cycle is classified cyclic while the other is not
(so it keeps its normal or conditional classification). -/
theorem c2_direct_cycle_exactly_one_cyclic (g : Graph) (hwf : WFgraph g) (a b : String)
    (hab : (a, b) ∈ g.edges) (hba : (b, a) ∈ g.edges) (hne : a ≠ b) :
    (∀ v ∈ g.nodes, Assigned (calculate_node_levels g) v) ∧
    (((a, b) ∈ (calculate_node_levels g).cyclic ∧
        (b, a) ∉ (calculate_node_levels g).cyclic) ∨
      ((a, b) ∉ (calculate_node_levels g).cyclic ∧
        (b, a) ∈ (calculate_node_levels g).cyclic)) := by
  obtain ⟨hGood, htotal⟩ := calculate_good g hwf
  obtain ⟨hSU, hEI, hCO, hCP, hCE, hND⟩ := hGood
  refine ⟨htotal, ?_⟩
  have haN : a ∈ g.nodes := (hwf (a, b) hab).1
  have hbN : b ∈ g.nodes := (hwf (a, b) hab).2
  by_cases h1 : (a, b) ∈ (calculate_node_levels g).cyclic
  · by_cases h2 : (b, a) ∈ (calculate_node_levels g).cyclic
    · exfalso
      obtain ⟨l1, l2, hk1, hq1⟩ := hCO a b h1 hne (htotal a haN)
      obtain ⟨l1', l2', hk2, hq2⟩ := hCO b a h2 hne.symm (htotal b hbN)
      exact nodup_no_cross l1 l2 l1' l2' (hk1 ▸ hND) (hk1.symm.trans hk2) hq1 hq2
    · exact Or.inl ⟨h1, h2⟩
  · by_cases h2 : (b, a) ∈ (calculate_node_levels g).cyclic
    · exact Or.inr ⟨h1, h2⟩
    · exfalso
      obtain ⟨lb, hlb⟩ := Option.isSome_iff_exists.mp (htotal b hbN)
      obtain ⟨la, hla, hlt1⟩ := hEI a b hab h1 lb hlb
      obtain ⟨lb', hlb', hlt2⟩ := hEI b a hba h2 la hla
      rw [hlb] at hlb'
      have heq : lb = lb' := Option.some.inj hlb'
      rw [← heq] at hlt2
      exact Nat.lt_irrefl la (Nat.lt_trans hlt1 hlt2)

/-- Witness for C2 on the direct two-node cycle. -/
theorem c2_witness :
    (∀ v ∈ gCycle.nodes, Assigned (calculate_node_levels gCycle) v) ∧
    ((("a", "b") ∈ (calculate_node_levels gCycle).cyclic ∧
        ("b", "a") ∉ (calculate_node_levels gCycle).cyclic) ∨
      (("a", "b") ∉ (calculate_node_levels gCycle).cyclic ∧
        ("b", "a") ∈ (calculate_node_levels gCycle).cyclic)) :=
  c2_direct_cycle_exactly_one_cyclic gCycle (by decide) "a" "b" (by decide) (by decide)
    (by decide)

/-- C3: whenever `FlowPlot.plot` fails (HTML generation raised, or the
target path is unwritable), the failure is surfaced to the caller as an
error and the filesystem is left unchanged, so no partial artifact file
remains at the output location; the artifact is written only after the
in-memory layout and HTML generation have succeeded. -/
theorem c3_no_partial_artifact_on_failure (g : Graph) (filename : String) (env : Env)
    (cwd : String) (fs : FileSystem) (e : PlotError)
    (hfail : (FlowPlot.plot g filename env cwd fs).1 = Except.error e) :
    (FlowPlot.plot g filename env cwd fs).2.1 = fs := by
  unfold FlowPlot.plot at hfail ⊢
  by_cases h1 : env.htmlGenOk = true <;> by_cases h2 : env.pathWritable = true <;>
    simp [h1, h2] at hfail ⊢

/-- Witness for C3: an unwritable target path surfaces an error and
leaves the filesystem unchanged. -/
theorem c3_witness :
    (FlowPlot.plot gExample "diagram" envNoWrite "" fsEmpty).1
      = Except.error PlotError.writeFailure ∧
    (FlowPlot.plot gExample "diagram" envNoWrite "" fsEmpty).2.1 = fsEmpty :=
  ⟨rfl, c3_no_partial_artifact_on_failure gExample "diagram" envNoWrite "" fsEmpty
    PlotError.writeFailure rfl⟩

/-- C4 counterexample: when HTML generation raises, `FlowPlot.plot`
returns the error without removing the transient pyvis `lib` directory,
so the working files are not cleaned up on this exit path — the claim
that cleanup happens on every exit path fails on this input. -/
theorem c4_counterexample :
    (FlowPlot.plot gExample "diagram" envRenderFail "" fsWithLib).1
      = Except.error PlotError.renderFailure ∧
    libFolder "" ∈ (FlowPlot.plot gExample "diagram" envRenderFail "" fsWithLib).2.1.dirs := by
  constructor
  · rfl
  · show libFolder "" ∈ ["/lib"]
    simp [libFolder]

/-- C4 (amended): the transient pyvis `lib` directory is removed before
`FlowPlot.plot` returns on the successful exit path (after the artifact
has been written); on exits by exception during rendering or writing no
cleanup is performed, since the cleanup call is the last statement of
the method body and is not in a try/finally. -/
theorem c4_cleanup_only_on_success (g : Graph) (filename : String) (env : Env)
    (cwd : String) (fs : FileSystem)
    (h1 : env.htmlGenOk = true) (h2 : env.pathWritable = true) (h3 : env.rmtreeOk = true) :
    (FlowPlot.plot g filename env cwd fs).1 = Except.ok () ∧
    libFolder cwd ∉ (FlowPlot.plot g filename env cwd fs).2.1.dirs := by
  unfold FlowPlot.plot
  simp [h1, h2]
  exact cleanup_removes_lib env cwd _ h3

/-- Witness for C4's amended claim: on a fully successful run the lib
directory is gone. -/
theorem c4_witness :
    (FlowPlot.plot gExample "diagram" envOk "" fsWithLib).1 = Except.ok () ∧
    libFolder "" ∉ (FlowPlot.plot gExample "diagram" envOk "" fsWithLib).2.1.dirs :=
  c4_cleanup_only_on_success gExample "diagram" envOk "" fsWithLib rfl rfl rfl

/-- C5: the layout pipeline (level assignment followed by position
computation) is a deterministic function of the input flow graph: two
runs on equal inputs produce identical node position data. -/
theorem c5_layout_deterministic (g g' : Graph) (h : g = g') :
    layout_pipeline g = layout_pipeline g' := by
  rw [h]

/-- Witness for C5: two runs on the example flow agree. -/
theorem c5_witness : layout_pipeline gExample = layout_pipeline gExample :=
  c5_layout_deterministic gExample gExample rfl

/-- C6: on a successful run, `plot_flow` adds exactly one file, at the
caller-specified base name with suffix `.html`, holding the generated
document; when the filename argument is omitted the base name defaults
to `flow_plot`, so the output file is `flow_plot.html`. -/
theorem c6_single_html_artifact (g : Graph) (env : Env) (cwd : String) (fs : FileSystem)
    (filename : String) (h1 : env.htmlGenOk = true) (h2 : env.pathWritable = true) :
    (plot_flow g env cwd fs filename).2.1.files
      = (filename ++ ".html", finalHtmlContent g) :: fs.files ∧
    (plot_flow g env cwd fs).2.1.files
      = ("flow_plot.html", finalHtmlContent g) :: fs.files := by
  unfold plot_flow FlowPlot.plot
  simp [h1, h2, cleanup_files_eq]

/-- Witness for C6 on the example flow. -/
theorem c6_witness :
    (plot_flow gExample envOk "" fsEmpty "diagram").2.1.files
      = ("diagram" ++ ".html", finalHtmlContent gExample) :: fsEmpty.files ∧
    (plot_flow gExample envOk "" fsEmpty).2.1.files
      = ("flow_plot.html", finalHtmlContent gExample) :: fsEmpty.files :=
  c6_single_html_artifact gExample envOk "" fsEmpty "diagram" rfl rfl

/-- C7: on a successful run of `FlowPlot.plot` the artifact written at
the output path embeds the network options with physics disabled: its
content contains the options fragment setting `"enabled": false` inside
the physics block. -/
theorem c7_physics_disabled_in_artifact (g : Graph) (filename : String) (env : Env)
    (cwd : String) (fs : FileSystem)
    (h1 : env.htmlGenOk = true) (h2 : env.pathWritable = true) :
    ∃ pre post,
      alookup (filename ++ ".html") (FlowPlot.plot g filename env cwd fs).2.1.files
        = some (pre ++ "\"enabled\": false" ++ post) := by
  refine ⟨templateHead ++ "<div id=\"mynetwork\"></div><script>" ++ flowPlotOptionsPre,
    flowPlotOptionsPost ++ "</script><script>"
      ++ nodesFragment
        (add_edges
          (add_nodes_to_network
            (Network.set_options ⟨true, "750px", "100%", colorsBg, "", [], []⟩ flowPlotOptions)
            (compute_positions g (calculate_node_levels g)))
          g)
      ++ "</script>" ++ legendHtml ++ templateTail, ?_⟩
  unfold FlowPlot.plot
  simp [h1, h2, cleanup_files_eq, alookup]
  unfold finalHtmlContent generate_final_html_of generate_final_html extract_body_content
    generate_html Network.set_options
  rw [opts_split]
  simp [add_edges, add_nodes_to_network, String.append_assoc]

/-- Witness for C7 on the example flow. -/
theorem c7_witness :
    ∃ pre post,
      alookup ("diagram" ++ ".html")
          (FlowPlot.plot gExample "diagram" envOk "" fsEmpty).2.1.files
        = some (pre ++ "\"enabled\": false" ++ post) :=
  c7_physics_disabled_in_artifact gExample "diagram" envOk "" fsEmpty rfl rfl

/-- C8: when removing the transient directory fails, `_cleanup_pyvis_lib`
returns normally instead of raising, leaves the filesystem (and in
particular any already-written artifact) untouched, and logs an error
message. -/
theorem c8_cleanup_never_raises (env : Env) (cwd : String) (fs : FileSystem)
    (hrm : env.rmtreeOk = false) (hdir : isDir fs (libFolder cwd) = true) :
    (cleanup_pyvis_lib env cwd fs).1 = fs ∧ (cleanup_pyvis_lib env cwd fs).2 ≠ [] := by
  have he : existsPath fs (libFolder cwd) = true := lib_exists_of_isDir fs _ hdir
  unfold cleanup_pyvis_lib rmtree
  simp [he, hdir, hrm]

/-- Witness for C8: a failing removal on an existing lib directory. -/
theorem c8_witness :
    (cleanup_pyvis_lib envNoRm "" fsWithLib).1 = fsWithLib ∧
    (cleanup_pyvis_lib envNoRm "" fsWithLib).2 ≠ [] :=
  c8_cleanup_never_raises envNoRm "" fsWithLib rfl (by decide)

/-- C9: when removal succeeds, the cleanup step removes exactly the
`lib` directory under the current working directory whenever it exists
as a directory — whatever its origin — touching nothing else; when no
such directory exists the filesystem is returned unchanged. -/
theorem c9_cleanup_frame_condition (env : Env) (cwd : String) (fs : FileSystem)
    (hrm : env.rmtreeOk = true) :
    (isDir fs (libFolder cwd) = true →
      (cleanup_pyvis_lib env cwd fs).1.dirs
        = fs.dirs.filter (fun d => d != libFolder cwd) ∧
      (cleanup_pyvis_lib env cwd fs).1.files = fs.files ∧
      libFolder cwd ∉ (cleanup_pyvis_lib env cwd fs).1.dirs) ∧
    (isDir fs (libFolder cwd) = false → cleanup_pyvis_lib env cwd fs = (fs, [])) := by
  constructor
  · intro hdir
    have he : existsPath fs (libFolder cwd) = true := lib_exists_of_isDir fs _ hdir
    refine ⟨?_, ?_, cleanup_removes_lib env cwd fs hrm⟩ <;>
      · unfold cleanup_pyvis_lib rmtree
        simp [he, hdir, hrm]
  · intro hdir
    unfold cleanup_pyvis_lib
    simp [hdir]

/-- Witness for C9: removal of an existing lib directory, and the
no-op case on an empty filesystem. -/
theorem c9_witness :
    ((cleanup_pyvis_lib envOk "" fsWithLib).1.dirs
        = fsWithLib.dirs.filter (fun d => d != libFolder "") ∧
      (cleanup_pyvis_lib envOk "" fsWithLib).1.files = fsWithLib.files ∧
      libFolder "" ∉ (cleanup_pyvis_lib envOk "" fsWithLib).1.dirs) ∧
    cleanup_pyvis_lib envOk "" fsEmpty = (fsEmpty, []) :=
  ⟨(c9_cleanup_frame_condition envOk "" fsWithLib rfl).1 (by decide),
    (c9_cleanup_frame_condition envOk "" fsEmpty rfl).2 (by decide)⟩

/-- C10: with `langchain_core` importable, `Tool.to_langchain` builds
exactly one LangChain tool from the instance's fields but returns
`None`: the constructor result is discarded and the function body ends
without a return statement. -/
theorem c10_to_langchain_returns_none (t : CrewTool) :
    Tool.to_langchain t true = Except.ok ([⟨t.name, t.description⟩], none) := rfl
